import Mathlib

/-!
# Verification of the github_trending_list fetch-and-merge pipeline

Shallow embedding of the repository's core: the facet-parallel fetch
orchestration (`gathering.py`, `get_github_trending_repositories_async` /
`main`), the identity-keyed intra-run aggregation (`gathering.py`, `main`,
lines 207-219), and the cross-run snapshot merge (`organize.py`, `main`,
lines 34-41), together with the persistence helpers (`save_list`,
`load_list`, `save_dict`, `load_dict`) and the file-selection and
timestamp logic of `organize.py`.

External effects (the network, the file system, the wall clock) are passed
in as explicit oracle arguments; machine-level HTML parsing is abstracted
to a per-article parse outcome, matching the per-article
`except (AttributeError, ValueError): continue` structure of the source.
-/

namespace GithubTrending

/-- One scraped repository record, the dictionary built per article in
`get_github_trending_repositories_async` (gathering.py lines 117-125). -/
structure Repo where
  repository_name : String
  repository_url : String
  description : String
  language : String
  star : Nat
  fork : Nat
  date_range_stars : Nat
deriving DecidableEq, Repr

/-- One facet-membership entry, the dictionary appended to `published`
in `gathering.py` lines 214 and 217. -/
structure FacetTriple where
  language : String
  spoken_language_code : String
  since : String
deriving DecidableEq, Repr

/-- One aggregated entity: a record plus its `published` membership list,
the value stored under `output[repo['repository_name']]`. -/
structure AggregatedEntity where
  repo : Repo
  published : List FacetTriple
deriving DecidableEq, Repr

/-- The identity key of an entity: `repo['repository_name']`. -/
def keyOf (e : AggregatedEntity) : String :=
  e.repo.repository_name

/-- The Python `dict` keyed by `repository_name` is modelled as an
insertion-ordered list of entities; this is `output.keys()` as a list. -/
def keysOf (m : List AggregatedEntity) : List String :=
  m.map keyOf

/-- Dictionary lookup `output[name]`, i.e. the (under the uniqueness
invariant unique) entity whose identity key is `k`. -/
def lookupKey (m : List AggregatedEntity) (k : String) : Option AggregatedEntity :=
  m.find? (fun e => keyOf e == k)

/-- In-place update `output[name]['published'].extend(ps)` (or for a
one-element `ps`, `.append(p)`): every entity stored under key `k` gets
`ps` appended to its membership list; all other entities are untouched. -/
def updatePub (m : List AggregatedEntity) (k : String) (ps : List FacetTriple) :
    List AggregatedEntity :=
  m.map (fun e => if keyOf e == k then { e with published := e.published ++ ps } else e)

/-- One step of the intra-run aggregation loop body (gathering.py lines
212-217): if the record's name is already a key, append the current facet
triple to its `published`; otherwise insert the record with a singleton
`published` list. -/
def addRepo (m : List AggregatedEntity) (r : Repo) (t : FacetTriple) :
    List AggregatedEntity :=
  if (lookupKey m r.repository_name).isSome then
    updatePub m r.repository_name [t]
  else
    m ++ [{ repo := r, published := [t] }]

/-- One step of the cross-run merge loop body (organize.py lines 37-41):
if the snapshot record's name is already a key, extend the existing
entity's `published` by the record's whole `published` list; otherwise
insert the record as-is (keeping its own `published`). -/
def mergeStep (m : List AggregatedEntity) (e : AggregatedEntity) :
    List AggregatedEntity :=
  if (lookupKey m (keyOf e)).isSome then
    updatePub m (keyOf e) e.published
  else
    m ++ [e]

/-- Folding one snapshot file's record list into the accumulating map
(the inner loop of organize.py `main`). -/
def mergeFile (m : List AggregatedEntity) (file : List AggregatedEntity) :
    List AggregatedEntity :=
  file.foldl mergeStep m

/-- The cross-run merge of organize.py `main` lines 34-41: fold every
snapshot file's contents into one identity-keyed map, starting empty. -/
def merge (files : List (List AggregatedEntity)) : List AggregatedEntity :=
  files.foldl mergeFile []

/-- One iteration of the aggregation loop of gathering.py `main` lines
209-219, acting on the accumulator `(output, langs)` for one
`(result, language)` pair: an empty result is skipped entirely
(`continue`); otherwise every record is folded in with `addRepo` under
the facet triple `(language, spoken_language_code, since)`, and the
facet is appended to the successful-facet list unless it is `"all"`. -/
def aggStep (spoken_language_code since : String)
    (acc : List AggregatedEntity × List String) (p : List Repo × String) :
    List AggregatedEntity × List String :=
  if p.1.length = 0 then acc
  else
    (p.1.foldl
      (fun m r =>
        addRepo m r
          { language := p.2, spoken_language_code := spoken_language_code,
            since := since })
      acc.1,
     if p.2 == "all" then acc.2 else acc.2 ++ [p.2])

/-- The intra-run aggregation of gathering.py `main` lines 207-219, on the
already-zipped list of (per-facet result list, facet identifier) pairs,
starting from the empty map and the empty successful-facet list. -/
def aggregatePairs (pairs : List (List Repo × String))
    (spoken_language_code since : String) :
    List AggregatedEntity × List String :=
  pairs.foldl (aggStep spoken_language_code since) ([], [])

/-- The length of the membership list stored under key `k` (0 when the
key is absent). -/
def pubLenAt (m : List AggregatedEntity) (k : String) : Nat :=
  match lookupKey m k with
  | some e => e.published.length
  | none => 0

/-- The total membership length a snapshot file contributes to key `k`:
the sum of the `published` lengths of its records with that identity
key. -/
def filePubLen (file : List AggregatedEntity) (k : String) : Nat :=
  ((file.filter (fun e => keyOf e == k)).map
      (fun e => e.published.length)).sum

/-- A record with its window-scoped popularity delta
(`date_range_stars`) zeroed out: the projection onto the scalar fields
that distinct same-key occurrences within one run agree on. -/
def stripDelta (r : Repo) : Repo :=
  { r with date_range_stars := 0 }

/-- A sample scraped record, used to evaluate the claims on concrete
inputs. -/
def sampleRepo : Repo :=
  { repository_name := "octocat/hello"
    repository_url := "https://github.com/octocat/hello"
    description := "Sample"
    language := "Python"
    star := 10
    fork := 2
    date_range_stars := 3 }

/-- A sample facet triple for facet `l` on the default daily/all run. -/
def sampleTriple (l : String) : FacetTriple :=
  { language := l, spoken_language_code := "all", since := "daily" }

/-- A sample record carrying the window delta `d`, otherwise fixed:
two of these with different `d` model the same repository observed
under two facets with different window-scoped star counts. -/
def deltaRepo (d : Nat) : Repo :=
  { repository_name := "octocat/dup"
    repository_url := "https://github.com/octocat/dup"
    description := "Dup"
    language := "Rust"
    star := 5
    fork := 1
    date_range_stars := d }

/-- Concrete per-facet results zipped with facets, first ordering. -/
def pairsA : List (List Repo × String) :=
  [([deltaRepo 1], "python"), ([deltaRepo 2], "rust")]

/-- The same pairs processed in the opposite order. -/
def pairsB : List (List Repo × String) :=
  [([deltaRepo 2], "rust"), ([deltaRepo 1], "python")]

/-- A fetched page body, abstracted to the list of `article.Box-row`
elements, each carrying its parse outcome: `some r` when the field
extraction of gathering.py lines 98-125 succeeds, `none` when it raises
`AttributeError` or `ValueError` and the article is skipped. -/
def Body := List (Option Repo)

/-- The per-article extraction loop of gathering.py lines 97-128: parse
failures are skipped individually, successes are collected in order. -/
def extractRepos (body : Body) : List Repo :=
  body.filterMap id

/-- The network oracle: what one GET of a URL yields. `none` models any
transport error, non-2xx status (after `raise_for_status`) or timeout —
every outcome caught by the `except Exception` of gathering.py line 82;
`some body` models a successful retrieval of `body`. -/
def Network := String → Option Body

/-- `get_github_trending_repositories_async` (gathering.py lines 57-130)
as a function of the network oracle: a failed retrieval returns `[]`,
a successful one returns the extracted records. -/
def get_github_trending_repositories_async (network : Network) (url : String) :
    List Repo :=
  match network url with
  | none => []
  | some body => extractRepos body

/-- The fan-out/fan-in of gathering.py lines 202-204: one task per URL,
`asyncio.gather` returns their results in task-creation order. -/
def fetch_many (network : Network) (urls : List String) : List (List Repo) :=
  urls.map (get_github_trending_repositories_async network)

/-- The hard per-request timeout, `timeout=10` at gathering.py line 77. -/
def requestTimeoutSeconds : Nat := 10

/-- The fixed cooldown, `asyncio.sleep(1)` at gathering.py line 87. -/
def cooldownSeconds : Nat := 1

/-- The concurrency ceiling, `asyncio.Semaphore(5)` at gathering.py
line 199. -/
def semaphoreInit : Nat := 5

/-- The observable events of one fetch task, in program order. -/
inductive FetchEvent where
  | acquireSlot
  | requestOk
  | requestFailed
  | cooldownSleep
  | releaseSlot
  | parseHtml
deriving DecidableEq, Repr

/-- The event trace of one run of
`get_github_trending_repositories_async`, transcribed from the control
flow of gathering.py lines 73-90: the semaphore is entered, the request
is made; on failure `return []` exits the `async with semaphore` block
immediately (releasing the slot, with no sleep and no parsing); on
success the task sleeps the cooldown, leaves the semaphore block, and
only then parses the body with BeautifulSoup. -/
def taskEvents (netResult : Option Body) : List FetchEvent :=
  match netResult with
  | none =>
      [FetchEvent.acquireSlot, FetchEvent.requestFailed, FetchEvent.releaseSlot]
  | some _ =>
      [FetchEvent.acquireSlot, FetchEvent.requestOk, FetchEvent.cooldownSleep,
       FetchEvent.releaseSlot, FetchEvent.parseHtml]

/-- URL construction of gathering.py lines 194-197: the unfiltered
trending page first, then one URL per facet identifier other than
`"all"`, with the spoken-language query parameter added when a specific
spoken language is selected. -/
def build_urls (since spoken_language_code : String) (languages : List String) :
    List String :=
  if spoken_language_code == "all" then
    ("https://github.com/trending?since=" ++ since) ::
      (languages.filter (fun i => i != "all")).map
        (fun i => "https://github.com/trending/" ++ i ++ "?since=" ++ since)
  else
    ("https://github.com/trending?since=" ++ since) ::
      (languages.filter (fun i => i != "all")).map
        (fun i => "https://github.com/trending/" ++ i ++ "?since=" ++ since ++
          "&spoken_language_code=" ++ spoken_language_code)

/-- Facet-list selection of gathering.py lines 189-192: on the default
run (`daily` + `all`) the list is `['all'] + get_trending_languages()`;
otherwise it is loaded from the cached `temp/lang_list.txt`
(`none` when the cache file is missing or unreadable). -/
def select_languages (since spoken_language_code : String)
    (discovered : List String) (cached : Option (List String)) :
    Option (List String) :=
  if since == "daily" && spoken_language_code == "all" then
    some ("all" :: discovered)
  else
    cached

/-- The phase a single fetch task is in, relative to the semaphore
protocol of gathering.py lines 73-90: `idle` before `async with
semaphore` is entered, `fetching` while the GET is in flight (slot
held), `cooling` during the success-path `asyncio.sleep(1)` (slot still
held), `finished` after the slot is released. -/
inductive FetchPhase where
  | idle
  | fetching
  | cooling
  | finished
deriving DecidableEq, Repr

/-- Whether a task in this phase holds a semaphore slot. -/
def holdsSlot : FetchPhase → Bool
  | FetchPhase.fetching => true
  | FetchPhase.cooling => true
  | _ => false

/-- The state of one batch: the semaphore's free-permit count and each
task's phase. -/
structure BatchState where
  sem : Nat
  tasks : List FetchPhase
deriving DecidableEq, Repr

/-- Number of network retrievals currently in flight. -/
def inFlight (s : BatchState) : Nat :=
  s.tasks.countP (fun t => t == FetchPhase.fetching)

/-- Number of tasks currently holding a semaphore slot. -/
def holders (s : BatchState) : Nat :=
  s.tasks.countP holdsSlot

/-- One scheduler step of the batch, transcribing the `asyncio.Semaphore`
protocol: a task may start its retrieval only by taking a free permit;
a failed retrieval releases the permit at once (`return []` exits the
`async with` block); a successful one first moves to the cooldown sleep
and releases the permit only when the sleep ends. -/
inductive BatchStep : BatchState → BatchState → Prop where
  | acquire (s : BatchState) (i : Nat)
      (h : s.tasks.get? i = some FetchPhase.idle) (hs : 0 < s.sem) :
      BatchStep s ⟨s.sem - 1, s.tasks.set i FetchPhase.fetching⟩
  | requestOk (s : BatchState) (i : Nat)
      (h : s.tasks.get? i = some FetchPhase.fetching) :
      BatchStep s ⟨s.sem, s.tasks.set i FetchPhase.cooling⟩
  | requestFailed (s : BatchState) (i : Nat)
      (h : s.tasks.get? i = some FetchPhase.fetching) :
      BatchStep s ⟨s.sem + 1, s.tasks.set i FetchPhase.finished⟩
  | cooldownDone (s : BatchState) (i : Nat)
      (h : s.tasks.get? i = some FetchPhase.cooling) :
      BatchStep s ⟨s.sem + 1, s.tasks.set i FetchPhase.finished⟩

/-- Reachable states of a batch of `K` tasks started with the semaphore
of gathering.py line 199 (`asyncio.Semaphore(5)`). -/
inductive BatchReach (K : Nat) : BatchState → Prop where
  | init : BatchReach K ⟨semaphoreInit, List.replicate K FetchPhase.idle⟩
  | step {s s' : BatchState} :
      BatchReach K s → BatchStep s s' → BatchReach K s'

/-- `save_list` (gathering.py lines 136-156): writes the items one per
line; returns `.ok true` on success and `.ok false` on `IOError` —
never an exception. `fsWriteOk` is the file-system oracle for whether
the underlying open/write succeeds. -/
def save_list (fsWriteOk : Bool) (_filepath : String) (_data : List String) :
    Except String Bool :=
  if fsWriteOk then Except.ok true
  else Except.ok false

/-- The line list `save_list` writes on success: one line per item
(each item written as `item + '\n'`, so this is faithful exactly when no
item contains a newline). -/
def save_list_lines (data : List String) : List String :=
  data

/-- Python's `str.strip()`: drop leading and trailing whitespace. -/
def pyStrip (s : String) : String :=
  ⟨(((s.data.dropWhile Char.isWhitespace).reverse).dropWhile
      Char.isWhitespace).reverse⟩

/-- `load_list` (gathering.py lines 158-182): `.ok none` when the file
does not exist, `.ok (some lines)` with each line stripped on success,
`.ok none` again on `IOError` — never an exception. `fileOnDisk` and
`fsReadOk` are the file-system oracle; `lines` the stored line list. -/
def load_list (fileOnDisk : Bool) (fsReadOk : Bool) (lines : List String) :
    Except String (Option (List String)) :=
  if !fileOnDisk then Except.ok none
  else if fsReadOk then Except.ok (some (lines.map pyStrip))
  else Except.ok none

/-- `save_dict` (gathering.py lines 132-134 and organize.py lines 22-24):
`open(path, 'w')` / `json.dump` with no `try` around them, so a failing
write raises and the exception propagates to the caller; on success the
function returns `None` (here `.ok ()`). -/
def save_dict (fsWriteOk : Bool) (path : String) : Except String Unit :=
  if fsWriteOk then Except.ok ()
  else Except.error ("IOError: " ++ path)

/-- `load_dict` (organize.py lines 26-28): `open(path, 'r')` /
`json.load` with no `try`, so a failing read raises and the exception
propagates; on success the parsed snapshot contents are returned. -/
def load_dict (fsReadOk : Bool) (path : String)
    (data : List AggregatedEntity) : Except String (List AggregatedEntity) :=
  if fsReadOk then Except.ok data
  else Except.error ("IOError: " ++ path)

/-- `get_json_files` (organize.py lines 6-9): `glob` of `temp/*.json`
over the entries of the `temp` directory, minus the scratch file
`temp/data.json`. `entries` is the directory-listing oracle (the direct
children of `temp`). -/
def get_json_files (entries : List String) : List String :=
  ((entries.filter (fun e => e.endsWith ".json")).map
      (fun e => "temp/" ++ e)).filter (fun p => p != "temp/data.json")

/-- A civil wall-clock datetime, as `datetime.now(timezone(timedelta(hours=9)))`
yields it: already converted to the fixed UTC+9 offset. -/
structure Datetime where
  year : Nat
  month : Nat
  day : Nat
  hour : Nat
  minute : Nat
  second : Nat
deriving DecidableEq, Repr

/-- Zero-padding to two digits, as `strftime` does for `%m`, `%d`, `%H`. -/
def pad2 (n : Nat) : String :=
  if n < 10 then "0" ++ toString n else toString n

/-- Zero-padding to four digits, as `strftime` does for `%Y`. -/
def pad4 (n : Nat) : String :=
  if n < 10 then "000" ++ toString n
  else if n < 100 then "00" ++ toString n
  else if n < 1000 then "0" ++ toString n
  else toString n

/-- `get_jst_time` (organize.py lines 11-20): format the current UTC+9
civil time with `strftime("%Y_%m_%d_%H")` — minutes and seconds are
dropped, so the name is truncated to hour precision. -/
def get_jst_time (now_jst : Datetime) : String :=
  pad4 now_jst.year ++ "_" ++ pad2 now_jst.month ++ "_" ++ pad2 now_jst.day ++
    "_" ++ pad2 now_jst.hour

/-- `main` of organize.py (lines 30-47) as a function of the
directory-listing oracle, the file-contents oracle and the clock:
returns the list of snapshot paths read and the list of
(path, contents) pairs written, in program order. -/
def organize_main (entries : List String)
    (contents : String → List AggregatedEntity) (now_jst : Datetime) :
    List String × List (String × List AggregatedEntity) :=
  let files := get_json_files entries
  let output := files.foldl (fun m p => mergeFile m (contents p)) []
  (files,
   [("./data/latest.json", output),
    ("./data/" ++ get_jst_time now_jst ++ ".json", output)])

/-- The everywhere-failing network oracle. -/
def noNetwork : Network := fun _ => none

/-- C1: the fetch orchestrator is total and length/order preserving: the
result list has the same length and order as the target list; a target
whose retrieval fails yields `[]` at its position rather than a raised
error; a target's result depends only on the network's answer for that
target, so sibling targets are unaffected; and when every target fails
the output is a list of empty results of the input's length. -/
theorem C1_fetch_many_total_ordered_isolated :
    ∀ (network : Network) (urls : List String),
      (fetch_many network urls).length = urls.length
      ∧ (∀ i u, urls.get? i = some u → network u = none →
          (fetch_many network urls).get? i = some [])
      ∧ (∀ (network2 : Network) i u, urls.get? i = some u →
          network u = network2 u →
          (fetch_many network urls).get? i = (fetch_many network2 urls).get? i)
      ∧ ((∀ u ∈ urls, network u = none) →
          fetch_many network urls = List.replicate urls.length []) := by
  intro network urls
  refine ⟨by simp [fetch_many], ?_, ?_, ?_⟩
  · intro i u hi hu
    rw [List.get?_eq_getElem?] at hi ⊢
    simp [fetch_many, List.getElem?_map, hi,
      get_github_trending_repositories_async, hu]
  · intro network2 i u hi heq
    rw [List.get?_eq_getElem?] at hi
    rw [List.get?_eq_getElem?, List.get?_eq_getElem?]
    simp [fetch_many, List.getElem?_map, hi,
      get_github_trending_repositories_async, heq]
  · intro hall
    refine List.eq_replicate_iff.mpr ⟨by simp [fetch_many], ?_⟩
    intro b hb
    rcases List.mem_map.mp hb with ⟨u, hu, rfl⟩
    simp [get_github_trending_repositories_async, hall u hu]

/-- Witness for C1 at a concrete input: two targets, both failing, give
`[[], []]`. -/
theorem C1_witness :
    fetch_many noNetwork ["https://github.com/trending?since=daily",
        "https://github.com/trending/python?since=daily"]
      = List.replicate 2 [] :=
  (C1_fetch_many_total_ordered_isolated noNetwork
    ["https://github.com/trending?since=daily",
     "https://github.com/trending/python?since=daily"]).2.2.2
    (fun _ _ => rfl)

/-- C6 counterexample: the claim says a task whose retrieval failed still
holds its slot through the cooldown, releasing only after it; but the
failure path of gathering.py (`return []` at line 84, inside the
`async with semaphore` block and before `await asyncio.sleep(1)` at
line 87) releases the slot with no cooldown event at all. -/
theorem C6_counterexample_failed_task_skips_cooldown :
    FetchEvent.releaseSlot ∈ taskEvents none
    ∧ FetchEvent.cooldownSleep ∉ taskEvents none := by
  decide

/-- C6 (amended): the slot is always released before any CPU-bound
parsing of the body; on a successful retrieval the task holds the slot
through the cooldown and releases it only afterwards; on a failed
retrieval the task returns immediately — the slot is released without
any cooldown and no parsing happens at all. -/
theorem C6_amended_slot_discipline :
    ∀ r : Option Body,
      (FetchEvent.parseHtml ∈ taskEvents r →
        List.Sublist [FetchEvent.releaseSlot, FetchEvent.parseHtml]
          (taskEvents r))
      ∧ (r.isSome = true →
        List.Sublist [FetchEvent.cooldownSleep, FetchEvent.releaseSlot]
          (taskEvents r))
      ∧ (r = none →
        FetchEvent.cooldownSleep ∉ taskEvents r
        ∧ FetchEvent.parseHtml ∉ taskEvents r) := by
  intro r
  cases r with
  | none =>
      refine ⟨?_, ?_, ?_⟩
      · intro h
        exact absurd h (by decide)
      · intro h
        simp at h
      · intro _
        decide
  | some b =>
      refine ⟨?_, ?_, ?_⟩
      · intro _
        show List.Sublist [FetchEvent.releaseSlot, FetchEvent.parseHtml]
          [FetchEvent.acquireSlot, FetchEvent.requestOk,
           FetchEvent.cooldownSleep, FetchEvent.releaseSlot,
           FetchEvent.parseHtml]
        decide
      · intro _
        show List.Sublist [FetchEvent.cooldownSleep, FetchEvent.releaseSlot]
          [FetchEvent.acquireSlot, FetchEvent.requestOk,
           FetchEvent.cooldownSleep, FetchEvent.releaseSlot,
           FetchEvent.parseHtml]
        decide
      · intro h
        exact absurd h (by simp)

/-- Witness for C6 (amended) at a concrete successful retrieval. -/
theorem C6_witness :
    List.Sublist [FetchEvent.cooldownSleep, FetchEvent.releaseSlot]
      (taskEvents (some []))
    ∧ List.Sublist [FetchEvent.releaseSlot, FetchEvent.parseHtml]
      (taskEvents (some [])) :=
  ⟨(C6_amended_slot_discipline (some [])).2.1 rfl,
   (C6_amended_slot_discipline (some [])).1 (by decide)⟩

/-- C4 (code bug), evaluated at the failing input `since = "weekly"`,
`spoken_language_code = "all"` with cached facet list `["python"]`: the
non-default run loads the cached facet list, which never contains the
sentinel `"all"`, yet `build_urls` still prepends the unfiltered target,
so the target list has length 2 while the facet list has length 1; the
aggregator's zip then pairs the unfiltered target with the facet
`"python"` and silently drops the python target's result. -/
theorem C4_cached_facet_list_misaligned :
    select_languages "weekly" "all" [] (some ["python"]) = some ["python"]
    ∧ (build_urls "weekly" "all" ["python"]).length = 2
    ∧ (["python"] : List String).length = 1
    ∧ (List.zip (build_urls "weekly" "all" ["python"]) ["python"]).map
        Prod.fst = ["https://github.com/trending?since=weekly"]
    ∧ (List.zip (build_urls "weekly" "all" ["python"]) ["python"]).map
        Prod.snd = ["python"] := by
  decide

/-- C9 counterexample: a failing write of the rolling cumulative file
(and a failing read of a per-run snapshot) surfaces as a propagated
exception, not as a failure sentinel — `save_dict` and `load_dict` have
no `try`/`except`. -/
theorem C9_counterexample_save_dict_raises :
    save_dict false "./data/latest.json"
      = Except.error ("IOError: " ++ "./data/latest.json")
    ∧ load_dict false "temp/daily-all.json" []
      = Except.error ("IOError: " ++ "temp/daily-all.json") :=
  ⟨rfl, rfl⟩

/-- C9 (amended): the failure-sentinel contract holds for the cached
facet-list operations — `save_list` always returns a boolean flag
(`.ok true` on success, `.ok false` on `IOError`) and `load_list`
always returns a value (`none` when the file is missing or unreadable),
neither ever raising — while the JSON snapshot and cumulative-output
operations `save_dict` and `load_dict` propagate an exception whenever
the underlying file access fails. -/
theorem C9_amended_persistence_failures :
    ∀ (ok onDisk readOk : Bool) (path : String) (items lines : List String)
      (snapshot : List AggregatedEntity),
      save_list ok path items = Except.ok ok
      ∧ load_list onDisk readOk lines
          = Except.ok
              (if onDisk && readOk then some (lines.map pyStrip) else none)
      ∧ save_dict ok path
          = (if ok then Except.ok ()
             else Except.error ("IOError: " ++ path))
      ∧ load_dict readOk path snapshot
          = (if readOk then Except.ok snapshot
             else Except.error ("IOError: " ++ path)) := by
  intro ok onDisk readOk path items lines snapshot
  refine ⟨?_, ?_, ?_, ?_⟩
  · cases ok <;> rfl
  · cases onDisk <;> cases readOk <;> rfl
  · cases ok <;> rfl
  · cases readOk <;> rfl

/-- The aggregation step on one record is the merge step on the
corresponding one-membership entity: gathering.py lines 212-217 and
organize.py lines 37-41 implement the same fold rule. -/
theorem addRepo_eq_mergeStep (m : List AggregatedEntity) (r : Repo)
    (t : FacetTriple) :
    addRepo m r t = mergeStep m { repo := r, published := [t] } := rfl

theorem lookupKey_cons (e : AggregatedEntity) (m : List AggregatedEntity)
    (k : String) :
    lookupKey (e :: m) k
      = if keyOf e == k then some e else lookupKey m k := by
  by_cases h : keyOf e == k <;> simp [lookupKey, List.find?_cons, h]

theorem keysOf_updatePub (m : List AggregatedEntity) (k : String)
    (ps : List FacetTriple) :
    keysOf (updatePub m k ps) = keysOf m := by
  unfold keysOf updatePub
  rw [List.map_map]
  apply List.map_congr_left
  intro e _
  by_cases h : e.repo.repository_name = k <;> simp [Function.comp, keyOf, h]

theorem updatePub_cons (e : AggregatedEntity) (m : List AggregatedEntity)
    (k : String) (ps : List FacetTriple) :
    updatePub (e :: m) k ps
      = (if keyOf e == k then { e with published := e.published ++ ps }
         else e) :: updatePub m k ps := rfl

theorem lookupKey_updatePub_self (m : List AggregatedEntity) (k : String)
    (ps : List FacetTriple) :
    lookupKey (updatePub m k ps) k
      = (lookupKey m k).map
          (fun e => { e with published := e.published ++ ps }) := by
  induction m with
  | nil => rfl
  | cons e m ih =>
      rw [updatePub_cons, lookupKey_cons, lookupKey_cons]
      by_cases h : e.repo.repository_name = k
      · simp [keyOf, h]
      · simp [keyOf, h, ih]

theorem lookupKey_updatePub_ne (m : List AggregatedEntity) (k k2 : String)
    (ps : List FacetTriple) (hne : k2 ≠ k) :
    lookupKey (updatePub m k ps) k2 = lookupKey m k2 := by
  induction m with
  | nil => rfl
  | cons e m ih =>
      rw [updatePub_cons, lookupKey_cons, lookupKey_cons]
      by_cases h : e.repo.repository_name = k
      · have h2 : ¬ e.repo.repository_name = k2 := by
          rw [h]
          exact fun hh => hne hh.symm
        simp [keyOf, h, h2, Ne.symm hne, ih]
      · by_cases h3 : e.repo.repository_name = k2 <;>
          simp [keyOf, h, h3, hne, ih]

theorem lookupKey_append_single (m : List AggregatedEntity)
    (e : AggregatedEntity) (k : String) :
    lookupKey (m ++ [e]) k
      = (lookupKey m k).or (if keyOf e == k then some e else none) := by
  by_cases h : keyOf e == k <;>
    simp [lookupKey, List.find?_append, List.find?_cons, h]

theorem lookupKey_isSome_iff (m : List AggregatedEntity) (k : String) :
    (lookupKey m k).isSome = true ↔ k ∈ keysOf m := by
  simp only [lookupKey, List.find?_isSome, keysOf, List.mem_map]
  constructor
  · rintro ⟨e, he, hk⟩
    exact ⟨e, he, by simpa using hk⟩
  · rintro ⟨e, he, hk⟩
    exact ⟨e, he, by simpa using hk⟩

theorem keysOf_mergeStep (m : List AggregatedEntity) (e : AggregatedEntity) :
    keysOf (mergeStep m e)
      = if (lookupKey m (keyOf e)).isSome = true then keysOf m
        else keysOf m ++ [keyOf e] := by
  unfold mergeStep
  by_cases h : (lookupKey m (keyOf e)).isSome = true
  · rw [if_pos h, if_pos h, keysOf_updatePub]
  · rw [if_neg h, if_neg h]
    simp [keysOf]

theorem mem_keysOf_mergeStep (m : List AggregatedEntity)
    (e : AggregatedEntity) (k : String) :
    k ∈ keysOf (mergeStep m e) ↔ k ∈ keysOf m ∨ k = keyOf e := by
  rw [keysOf_mergeStep]
  by_cases h : (lookupKey m (keyOf e)).isSome = true
  · have hin : keyOf e ∈ keysOf m := (lookupKey_isSome_iff m (keyOf e)).mp h
    rw [if_pos h]
    constructor
    · exact Or.inl
    · rintro (hk | rfl)
      · exact hk
      · exact hin
  · rw [if_neg h]
    simp

theorem pubLenAt_mergeStep (m : List AggregatedEntity)
    (e : AggregatedEntity) (k : String) :
    pubLenAt (mergeStep m e) k
      = pubLenAt m k + (if keyOf e = k then e.published.length else 0) := by
  unfold mergeStep
  by_cases hs : (lookupKey m (keyOf e)).isSome = true
  · rw [if_pos hs]
    by_cases hk : keyOf e = k
    · subst hk
      unfold pubLenAt
      rw [lookupKey_updatePub_self]
      cases hval : lookupKey m (keyOf e) with
      | none => rw [hval] at hs; simp at hs
      | some e0 => simp
    · unfold pubLenAt
      rw [lookupKey_updatePub_ne m (keyOf e) k e.published
        (fun hh => hk hh.symm)]
      simp [hk]
  · rw [if_neg hs]
    unfold pubLenAt
    rw [lookupKey_append_single]
    have hnone : lookupKey m (keyOf e) = none :=
      Option.not_isSome_iff_eq_none.mp hs
    by_cases hk : keyOf e = k
    · subst hk
      rw [hnone]
      simp
    · have hb : (keyOf e == k) = false := by simp [hk]
      rw [hb]
      simp [hk]

theorem lookupKey_mergeStep_isSome_mono (m : List AggregatedEntity)
    (e : AggregatedEntity) (k : String)
    (h : (lookupKey m k).isSome = true) :
    (lookupKey (mergeStep m e) k).isSome = true := by
  rw [lookupKey_isSome_iff] at h ⊢
  rw [mem_keysOf_mergeStep]
  exact Or.inl h

theorem repo_mergeStep_of_isSome (m : List AggregatedEntity)
    (e : AggregatedEntity) (k : String)
    (h : (lookupKey m k).isSome = true) :
    (lookupKey (mergeStep m e) k).map AggregatedEntity.repo
      = (lookupKey m k).map AggregatedEntity.repo := by
  unfold mergeStep
  by_cases hs : (lookupKey m (keyOf e)).isSome = true
  · rw [if_pos hs]
    by_cases hk : keyOf e = k
    · subst hk
      rw [lookupKey_updatePub_self]
      cases hval : lookupKey m (keyOf e) <;> simp
    · rw [lookupKey_updatePub_ne m (keyOf e) k e.published
        (fun hh => hk hh.symm)]
  · rw [if_neg hs, lookupKey_append_single]
    cases hval : lookupKey m k with
    | none => rw [hval] at h; simp at h
    | some e0 => simp

theorem pubLenAt_mergeFile (file : List AggregatedEntity) :
    ∀ (m : List AggregatedEntity) (k : String),
      pubLenAt (mergeFile m file) k = pubLenAt m k + filePubLen file k := by
  induction file with
  | nil =>
      intro m k
      simp [mergeFile, filePubLen]
  | cons e file ih =>
      intro m k
      have hstep : mergeFile m (e :: file) = mergeFile (mergeStep m e) file :=
        rfl
      rw [hstep, ih, pubLenAt_mergeStep]
      unfold filePubLen
      by_cases hk : keyOf e = k
      · rw [List.filter_cons]
        simp only [hk]
        simp
        omega
      · rw [List.filter_cons]
        have hb : (keyOf e == k) = false := by simp [hk]
        simp [hb, hk]

theorem mem_keysOf_mergeFile (file : List AggregatedEntity) :
    ∀ (m : List AggregatedEntity) (k : String),
      k ∈ keysOf (mergeFile m file)
        ↔ k ∈ keysOf m ∨ ∃ e ∈ file, keyOf e = k := by
  induction file with
  | nil =>
      intro m k
      simp [mergeFile]
  | cons e file ih =>
      intro m k
      have hstep : mergeFile m (e :: file) = mergeFile (mergeStep m e) file :=
        rfl
      rw [hstep, ih, mem_keysOf_mergeStep]
      constructor
      · rintro ((hm | rfl) | ⟨e2, he2, rfl⟩)
        · exact Or.inl hm
        · exact Or.inr ⟨e, by simp, rfl⟩
        · exact Or.inr ⟨e2, by simp [he2], rfl⟩
      · rintro (hm | ⟨e2, he2, rfl⟩)
        · exact Or.inl (Or.inl hm)
        · rcases List.mem_cons.mp he2 with rfl | he2
          · exact Or.inl (Or.inr rfl)
          · exact Or.inr ⟨e2, he2, rfl⟩

theorem keysOf_mergeFile_of_subset (file : List AggregatedEntity) :
    ∀ m : List AggregatedEntity,
      (∀ e ∈ file, keyOf e ∈ keysOf m) →
      keysOf (mergeFile m file) = keysOf m := by
  induction file with
  | nil =>
      intro m _
      rfl
  | cons e file ih =>
      intro m h
      have hstep : mergeFile m (e :: file) = mergeFile (mergeStep m e) file :=
        rfl
      have hs : (lookupKey m (keyOf e)).isSome = true :=
        (lookupKey_isSome_iff m (keyOf e)).mpr (h e (by simp))
      have hkeys : keysOf (mergeStep m e) = keysOf m := by
        rw [keysOf_mergeStep, if_pos hs]
      rw [hstep,
        ih (mergeStep m e)
          (by
            intro e2 he2
            rw [hkeys]
            exact h e2 (List.mem_cons_of_mem e he2)),
        hkeys]

theorem repo_mergeFile_of_isSome (file : List AggregatedEntity) :
    ∀ (m : List AggregatedEntity) (k : String),
      (lookupKey m k).isSome = true →
      (lookupKey (mergeFile m file) k).map AggregatedEntity.repo
        = (lookupKey m k).map AggregatedEntity.repo := by
  induction file with
  | nil =>
      intro m k _
      rfl
  | cons e file ih =>
      intro m k h
      have hstep : mergeFile m (e :: file) = mergeFile (mergeStep m e) file :=
        rfl
      rw [hstep, ih _ _ (lookupKey_mergeStep_isSome_mono m e k h),
        repo_mergeStep_of_isSome m e k h]

theorem lookupKey_mergeFile_none (file m : List AggregatedEntity)
    (k : String) (h1 : ¬ k ∈ keysOf m)
    (h2 : ¬ ∃ e ∈ file, keyOf e = k) :
    lookupKey (mergeFile m file) k = none := by
  have hmem : ¬ k ∈ keysOf (mergeFile m file) := by
    rw [mem_keysOf_mergeFile]
    rintro (hm | ⟨e, he, hk⟩)
    · exact h1 hm
    · exact h2 ⟨e, he, hk⟩
  cases hval : lookupKey (mergeFile m file) k with
  | none => rfl
  | some e =>
      exact absurd
        ((lookupKey_isSome_iff (mergeFile m file) k).mp (by rw [hval]; rfl))
        hmem

/-- C3: the merge is not content-idempotent: folding the same snapshot
twice doubles every key's membership-list length relative to folding it
once, while the key list and every key's scalar record fields are
identical — membership entries are concatenated without
deduplication. -/
theorem C3_merge_doubles_membership :
    ∀ (A : List AggregatedEntity) (k : String),
      pubLenAt (merge [A, A]) k = 2 * pubLenAt (merge [A]) k
      ∧ keysOf (merge [A, A]) = keysOf (merge [A])
      ∧ (lookupKey (merge [A, A]) k).map AggregatedEntity.repo
          = (lookupKey (merge [A]) k).map AggregatedEntity.repo := by
  intro A k
  have h1 : merge [A] = mergeFile [] A := rfl
  have h2 : merge [A, A] = mergeFile (mergeFile [] A) A := rfl
  refine ⟨?_, ?_, ?_⟩
  · rw [h1, h2, pubLenAt_mergeFile, pubLenAt_mergeFile]
    have h0 : pubLenAt [] k = 0 := rfl
    omega
  · rw [h1, h2]
    apply keysOf_mergeFile_of_subset
    intro e he
    rw [mem_keysOf_mergeFile]
    exact Or.inr ⟨e, he, rfl⟩
  · rw [h1, h2]
    by_cases hs : (lookupKey (mergeFile [] A) k).isSome = true
    · exact repo_mergeFile_of_isSome A _ k hs
    · have hmem : ¬ k ∈ keysOf (mergeFile [] A) := fun hm =>
        hs ((lookupKey_isSome_iff _ _).mpr hm)
      have hnotA : ¬ ∃ e ∈ A, keyOf e = k := by
        rintro ⟨e, he, hk⟩
        exact hmem ((mem_keysOf_mergeFile A [] k).mpr (Or.inr ⟨e, he, hk⟩))
      have hn1 : lookupKey (mergeFile [] A) k = none :=
        Option.not_isSome_iff_eq_none.mp hs
      have hn2 : lookupKey (mergeFile (mergeFile [] A) A) k = none :=
        lookupKey_mergeFile_none A (mergeFile [] A) k hmem hnotA
      rw [hn1, hn2]

theorem nodup_keysOf_mergeStep (m : List AggregatedEntity)
    (e : AggregatedEntity) (h : (keysOf m).Nodup) :
    (keysOf (mergeStep m e)).Nodup := by
  rw [keysOf_mergeStep]
  by_cases hs : (lookupKey m (keyOf e)).isSome = true
  · rw [if_pos hs]
    exact h
  · rw [if_neg hs]
    have hnot : ¬ keyOf e ∈ keysOf m := fun hm =>
      hs ((lookupKey_isSome_iff _ _).mpr hm)
    rw [List.nodup_append]
    refine ⟨h, List.nodup_singleton _, ?_⟩
    intro x hx hmem
    rw [List.mem_singleton] at hmem
    subst hmem
    exact hnot hx

theorem nodup_keysOf_mergeFile (file : List AggregatedEntity) :
    ∀ m : List AggregatedEntity,
      (keysOf m).Nodup → (keysOf (mergeFile m file)).Nodup := by
  induction file with
  | nil =>
      intro m h
      exact h
  | cons e file ih =>
      intro m h
      exact ih _ (nodup_keysOf_mergeStep m e h)

theorem nodup_keysOf_merge_foldl (files : List (List AggregatedEntity)) :
    ∀ m : List AggregatedEntity,
      (keysOf m).Nodup → (keysOf (files.foldl mergeFile m)).Nodup := by
  induction files with
  | nil =>
      intro m h
      exact h
  | cons f files ih =>
      intro m h
      exact ih _ (nodup_keysOf_mergeFile f m h)

theorem nodup_keysOf_addRepo_fold (rs : List Repo) (t : FacetTriple) :
    ∀ m : List AggregatedEntity,
      (keysOf m).Nodup →
      (keysOf (rs.foldl (fun m r => addRepo m r t) m)).Nodup := by
  induction rs with
  | nil =>
      intro m h
      exact h
  | cons r rs ih =>
      intro m h
      exact ih _
        (by
          show (keysOf (addRepo m r t)).Nodup
          rw [addRepo_eq_mergeStep]
          exact nodup_keysOf_mergeStep m _ h)

theorem nodup_keysOf_aggFold (pairs : List (List Repo × String))
    (s w : String) :
    ∀ acc : List AggregatedEntity × List String,
      (keysOf acc.1).Nodup →
      (keysOf (pairs.foldl (aggStep s w) acc).1).Nodup := by
  induction pairs with
  | nil =>
      intro acc h
      exact h
  | cons p pairs ih =>
      intro acc h
      apply ih
      unfold aggStep
      by_cases hl : p.1.length = 0
      · rw [if_pos hl]
        exact h
      · rw [if_neg hl]
        exact nodup_keysOf_addRepo_fold p.1 _ acc.1 h

/-- C2 (amended): both folds insert a record whose identity key is
absent and, for a key already present, only append to the membership
list, leaving the first-seen record's scalar fields and every other key
untouched, so each final map has exactly one entry per identity key.
They differ in the inserted/appended membership: the intra-run
aggregation inserts a singleton of the current facet triple and appends
one triple per hit, while the cross-run merge inserts the record with
its own (possibly non-singleton) membership list and appends that whole
list per hit. -/
theorem C2_amended_fold_rule :
    (∀ (m : List AggregatedEntity) (r : Repo) (t : FacetTriple),
      lookupKey m r.repository_name = none →
      addRepo m r t = m ++ [{ repo := r, published := [t] }])
    ∧ (∀ (m : List AggregatedEntity) (r : Repo) (t : FacetTriple)
        (e0 : AggregatedEntity),
        lookupKey m r.repository_name = some e0 →
        lookupKey (addRepo m r t) r.repository_name
          = some { repo := e0.repo, published := e0.published ++ [t] }
        ∧ ∀ k2, k2 ≠ r.repository_name →
            lookupKey (addRepo m r t) k2 = lookupKey m k2)
    ∧ (∀ (m : List AggregatedEntity) (e : AggregatedEntity),
        lookupKey m (keyOf e) = none → mergeStep m e = m ++ [e])
    ∧ (∀ (m : List AggregatedEntity) (e e0 : AggregatedEntity),
        lookupKey m (keyOf e) = some e0 →
        lookupKey (mergeStep m e) (keyOf e)
          = some { repo := e0.repo, published := e0.published ++ e.published }
        ∧ ∀ k2, k2 ≠ keyOf e →
            lookupKey (mergeStep m e) k2 = lookupKey m k2)
    ∧ (∀ (pairs : List (List Repo × String)) (s w : String),
        (keysOf (aggregatePairs pairs s w).1).Nodup)
    ∧ (∀ files : List (List AggregatedEntity),
        (keysOf (merge files)).Nodup) := by
  have hnone : ∀ (m : List AggregatedEntity) (e : AggregatedEntity),
      lookupKey m (keyOf e) = none → mergeStep m e = m ++ [e] := by
    intro m e h
    unfold mergeStep
    rw [h]
    simp
  have hsome : ∀ (m : List AggregatedEntity) (e e0 : AggregatedEntity),
      lookupKey m (keyOf e) = some e0 →
      lookupKey (mergeStep m e) (keyOf e)
        = some { repo := e0.repo, published := e0.published ++ e.published }
      ∧ ∀ k2, k2 ≠ keyOf e →
          lookupKey (mergeStep m e) k2 = lookupKey m k2 := by
    intro m e e0 h
    have hs : (lookupKey m (keyOf e)).isSome = true := by
      rw [h]
      rfl
    constructor
    · unfold mergeStep
      rw [if_pos hs, lookupKey_updatePub_self, h]
      rfl
    · intro k2 hk2
      unfold mergeStep
      rw [if_pos hs, lookupKey_updatePub_ne _ _ _ _ hk2]
  refine ⟨?_, ?_, hnone, hsome, ?_, ?_⟩
  · intro m r t h
    rw [addRepo_eq_mergeStep]
    exact hnone m _ h
  · intro m r t e0 h
    have := hsome m { repo := r, published := [t] } e0 h
    rw [addRepo_eq_mergeStep]
    exact this
  · intro pairs s w
    exact nodup_keysOf_aggFold pairs s w ([], []) (by simp [keysOf])
  · intro files
    exact nodup_keysOf_merge_foldl files [] (by simp [keysOf])

/-- C2 counterexample: the cross-run merge does not insert "a singleton
membership list with the current facet triple" — a snapshot record
whose identity key is absent from the map is inserted with its own
membership list kept as-is, here of length 2. -/
theorem C2_counterexample_merge_insert_not_singleton :
    (lookupKey
        (mergeStep []
          { repo := sampleRepo,
            published := [sampleTriple "python", sampleTriple "rust"] })
        "octocat/hello").map (fun e => e.published.length) = some 2 := by
  rfl

/-- Witness for C2 (amended): inserting a fresh record during intra-run
aggregation appends the entity with the singleton membership list. -/
theorem C2_witness :
    addRepo [] sampleRepo (sampleTriple "python")
      = [{ repo := sampleRepo, published := [sampleTriple "python"] }] :=
  C2_amended_fold_rule.1 [] sampleRepo (sampleTriple "python") rfl

theorem mem_keysOf_addRepo_fold (rs : List Repo) (t : FacetTriple) :
    ∀ (m : List AggregatedEntity) (k : String),
      k ∈ keysOf (rs.foldl (fun m r => addRepo m r t) m)
        ↔ k ∈ keysOf m ∨ ∃ r ∈ rs, r.repository_name = k := by
  induction rs with
  | nil =>
      intro m k
      simp
  | cons r rs ih =>
      intro m k
      have hstep : (r :: rs).foldl (fun m r => addRepo m r t) m
          = rs.foldl (fun m r => addRepo m r t) (addRepo m r t) := rfl
      rw [hstep, ih, addRepo_eq_mergeStep, mem_keysOf_mergeStep]
      constructor
      · rintro ((hm | rfl) | ⟨r2, hr2, rfl⟩)
        · exact Or.inl hm
        · exact Or.inr ⟨r, by simp, rfl⟩
        · exact Or.inr ⟨r2, by simp [hr2], rfl⟩
      · rintro (hm | ⟨r2, hr2, rfl⟩)
        · exact Or.inl (Or.inl hm)
        · rcases List.mem_cons.mp hr2 with rfl | hr2
          · exact Or.inl (Or.inr rfl)
          · exact Or.inr ⟨r2, hr2, rfl⟩

theorem mem_keysOf_aggFold (pairs : List (List Repo × String))
    (s w : String) :
    ∀ (acc : List AggregatedEntity × List String) (k : String),
      k ∈ keysOf (pairs.foldl (aggStep s w) acc).1
        ↔ k ∈ keysOf acc.1
          ∨ ∃ p ∈ pairs, ∃ r ∈ p.1, r.repository_name = k := by
  induction pairs with
  | nil =>
      intro acc k
      simp
  | cons p pairs ih =>
      intro acc k
      have hstep : (p :: pairs).foldl (aggStep s w) acc
          = pairs.foldl (aggStep s w) (aggStep s w acc p) := rfl
      rw [hstep, ih]
      by_cases hl : p.1.length = 0
      · have hempty : p.1 = [] := List.length_eq_zero.mp hl
        have hacc : aggStep s w acc p = acc := by
          unfold aggStep
          rw [if_pos hl]
        rw [hacc]
        constructor
        · rintro (hm | ⟨q, hq, r, hr, rfl⟩)
          · exact Or.inl hm
          · exact Or.inr ⟨q, by simp [hq], r, hr, rfl⟩
        · rintro (hm | ⟨q, hq, r, hr, rfl⟩)
          · exact Or.inl hm
          · rcases List.mem_cons.mp hq with rfl | hq
            · rw [hempty] at hr
              cases hr
            · exact Or.inr ⟨q, hq, r, hr, rfl⟩
      · have hacc1 : (aggStep s w acc p).1
            = p.1.foldl
                (fun m r =>
                  addRepo m r
                    { language := p.2, spoken_language_code := s,
                      since := w })
                acc.1 := by
          unfold aggStep
          rw [if_neg hl]
        rw [hacc1, mem_keysOf_addRepo_fold]
        constructor
        · rintro ((hm | ⟨r, hr, rfl⟩) | ⟨q, hq, r, hr, rfl⟩)
          · exact Or.inl hm
          · exact Or.inr ⟨p, by simp, r, hr, rfl⟩
          · exact Or.inr ⟨q, by simp [hq], r, hr, rfl⟩
        · rintro (hm | ⟨q, hq, r, hr, rfl⟩)
          · exact Or.inl (Or.inl hm)
          · rcases List.mem_cons.mp hq with rfl | hq
            · exact Or.inl (Or.inr ⟨r, hr, rfl⟩)
            · exact Or.inr ⟨q, hq, r, hr, rfl⟩

theorem mem_keysOf_aggregatePairs (pairs : List (List Repo × String))
    (s w : String) (k : String) :
    k ∈ keysOf (aggregatePairs pairs s w).1
      ↔ ∃ p ∈ pairs, ∃ r ∈ p.1, r.repository_name = k := by
  unfold aggregatePairs
  rw [mem_keysOf_aggFold]
  simp [keysOf]

theorem repo_provenance_mergeStep (m : List AggregatedEntity)
    (x : AggregatedEntity) (k : String) (e : AggregatedEntity)
    (h : lookupKey (mergeStep m x) k = some e) :
    (∃ e0, lookupKey m k = some e0 ∧ e0.repo = e.repo)
    ∨ (e.repo = x.repo ∧ keyOf x = k) := by
  unfold mergeStep at h
  by_cases hs : (lookupKey m (keyOf x)).isSome = true
  · rw [if_pos hs] at h
    by_cases hk : keyOf x = k
    · subst hk
      rw [lookupKey_updatePub_self] at h
      cases hval : lookupKey m (keyOf x) with
      | none =>
          rw [hval] at h
          cases h
      | some e0 =>
          rw [hval] at h
          simp only [Option.map_some'] at h
          have he : { repo := e0.repo, published := e0.published ++ x.published : AggregatedEntity } = e :=
            Option.some.inj h
          exact Or.inl ⟨e0, rfl, by rw [← he]⟩
    · rw [lookupKey_updatePub_ne m (keyOf x) k x.published
        (fun hh => hk hh.symm)] at h
      exact Or.inl ⟨e, h, rfl⟩
  · rw [if_neg hs, lookupKey_append_single] at h
    cases hval : lookupKey m k with
    | some e0 =>
        rw [hval] at h
        have h2 : some e0 = some e := h
        exact Or.inl ⟨e0, rfl, by rw [Option.some.inj h2]⟩
    | none =>
        rw [hval] at h
        have h : (if keyOf x == k then some x else none) = some e := h
        by_cases hk : keyOf x = k
        · simp only [hk, beq_self_eq_true, if_true] at h
          have hxe : x = e := Option.some.inj h
          exact Or.inr ⟨by rw [← hxe], hk⟩
        · have hb : (keyOf x == k) = false := by simp [hk]
          rw [hb] at h
          simp at h

theorem repo_provenance_addRepo_fold (rs : List Repo) (t : FacetTriple) :
    ∀ (m : List AggregatedEntity) (k : String) (e : AggregatedEntity),
      lookupKey (rs.foldl (fun m r => addRepo m r t) m) k = some e →
      (∃ e0, lookupKey m k = some e0 ∧ e0.repo = e.repo)
      ∨ (e.repo ∈ rs ∧ e.repo.repository_name = k) := by
  induction rs with
  | nil =>
      intro m k e h
      exact Or.inl ⟨e, h, rfl⟩
  | cons r rs ih =>
      intro m k e h
      rcases ih (addRepo m r t) k e h with ⟨e0, he0, hrepo⟩ | ⟨hmem, hname⟩
      · rw [addRepo_eq_mergeStep] at he0
        rcases repo_provenance_mergeStep m _ k e0 he0 with
          ⟨e1, he1, hrepo1⟩ | ⟨hrepo1, hname1⟩
        · exact Or.inl ⟨e1, he1, hrepo1.trans hrepo⟩
        · refine Or.inr ⟨?_, ?_⟩
          · rw [← hrepo, hrepo1]
            exact List.mem_cons_self r rs
          · rw [← hrepo, hrepo1]
            exact hname1
      · exact Or.inr ⟨List.mem_cons_of_mem r hmem, hname⟩

theorem repo_provenance_aggFold (pairs : List (List Repo × String))
    (s w : String) :
    ∀ (acc : List AggregatedEntity × List String) (k : String)
      (e : AggregatedEntity),
      lookupKey (pairs.foldl (aggStep s w) acc).1 k = some e →
      (∃ e0, lookupKey acc.1 k = some e0 ∧ e0.repo = e.repo)
      ∨ (∃ p ∈ pairs, e.repo ∈ p.1 ∧ e.repo.repository_name = k) := by
  induction pairs with
  | nil =>
      intro acc k e h
      exact Or.inl ⟨e, h, rfl⟩
  | cons p pairs ih =>
      intro acc k e h
      rcases ih (aggStep s w acc p) k e h with
        ⟨e0, he0, hrepo⟩ | ⟨q, hq, hmem, hname⟩
      · by_cases hl : p.1.length = 0
        · have hacc : aggStep s w acc p = acc := by
            unfold aggStep
            rw [if_pos hl]
          rw [hacc] at he0
          exact Or.inl ⟨e0, he0, hrepo⟩
        · have hacc1 : (aggStep s w acc p).1
              = p.1.foldl
                  (fun m r =>
                    addRepo m r
                      { language := p.2, spoken_language_code := s,
                        since := w })
                  acc.1 := by
            unfold aggStep
            rw [if_neg hl]
          rw [hacc1] at he0
          rcases repo_provenance_addRepo_fold p.1 _ acc.1 k e0 he0 with
            ⟨e1, he1, hrepo1⟩ | ⟨hmem, hname⟩
          · exact Or.inl ⟨e1, he1, hrepo1.trans hrepo⟩
          · refine Or.inr ⟨p, by simp, ?_, ?_⟩
            · rw [← hrepo]
              exact hmem
            · rw [← hrepo]
              exact hname
      · exact Or.inr ⟨q, List.mem_cons_of_mem p hq, hmem, hname⟩

theorem repo_provenance_aggregatePairs (pairs : List (List Repo × String))
    (s w : String) (k : String) (e : AggregatedEntity)
    (h : lookupKey (aggregatePairs pairs s w).1 k = some e) :
    ∃ p ∈ pairs, e.repo ∈ p.1 ∧ e.repo.repository_name = k := by
  rcases repo_provenance_aggFold pairs s w ([], []) k e h with
    ⟨e0, he0, _⟩ | hx
  · simp [lookupKey] at he0
  · exact hx

/-- C5 (amended): permuting the order in which the (per-facet result
list, facet identifier) pairs are processed yields a map with an
identical set of identity keys; and when all occurrences of an identity
key agree on every scalar field except possibly the window-scoped delta
(`date_range_stars`), each key's retained scalar fields agree up to
that delta. The retained delta itself is first-seen and therefore may
depend on the processing order. -/
theorem C5_amended_order_insensitive :
    ∀ (pairs pairs2 : List (List Repo × String)) (s w : String),
      pairs.Perm pairs2 →
      (∀ k, k ∈ keysOf (aggregatePairs pairs s w).1
          ↔ k ∈ keysOf (aggregatePairs pairs2 s w).1)
      ∧ ((∀ p ∈ pairs, ∀ r ∈ p.1, ∀ q ∈ pairs, ∀ r2 ∈ q.1,
            r.repository_name = r2.repository_name →
            stripDelta r = stripDelta r2) →
        ∀ k,
          (lookupKey (aggregatePairs pairs s w).1 k).map
              (fun e => stripDelta e.repo)
            = (lookupKey (aggregatePairs pairs2 s w).1 k).map
              (fun e => stripDelta e.repo)) := by
  intro pairs pairs2 s w hperm
  have hkeys : ∀ k, k ∈ keysOf (aggregatePairs pairs s w).1
      ↔ k ∈ keysOf (aggregatePairs pairs2 s w).1 := by
    intro k
    rw [mem_keysOf_aggregatePairs, mem_keysOf_aggregatePairs]
    constructor
    · rintro ⟨p, hp, hr⟩
      exact ⟨p, hperm.mem_iff.mp hp, hr⟩
    · rintro ⟨p, hp, hr⟩
      exact ⟨p, hperm.mem_iff.mpr hp, hr⟩
  refine ⟨hkeys, ?_⟩
  intro hagree k
  cases h1 : lookupKey (aggregatePairs pairs s w).1 k with
  | none =>
      cases h2 : lookupKey (aggregatePairs pairs2 s w).1 k with
      | none => rfl
      | some e2 =>
          exfalso
          have hm2 : k ∈ keysOf (aggregatePairs pairs2 s w).1 :=
            (lookupKey_isSome_iff _ _).mp (by rw [h2]; rfl)
          have hm1 := (lookupKey_isSome_iff _ _).mpr ((hkeys k).mpr hm2)
          rw [h1] at hm1
          simp at hm1
  | some e1 =>
      cases h2 : lookupKey (aggregatePairs pairs2 s w).1 k with
      | none =>
          exfalso
          have hm1 : k ∈ keysOf (aggregatePairs pairs s w).1 :=
            (lookupKey_isSome_iff _ _).mp (by rw [h1]; rfl)
          have hm2 := (lookupKey_isSome_iff _ _).mpr ((hkeys k).mp hm1)
          rw [h2] at hm2
          simp at hm2
      | some e2 =>
          rcases repo_provenance_aggregatePairs pairs s w k e1 h1 with
            ⟨p, hp, hmem1, hname1⟩
          rcases repo_provenance_aggregatePairs pairs2 s w k e2 h2 with
            ⟨q, hq, hmem2, hname2⟩
          have hq1 : q ∈ pairs := hperm.mem_iff.mpr hq
          have heq := hagree p hp e1.repo hmem1 q hq1 e2.repo hmem2
            (by rw [hname1, hname2])
          simp only [Option.map_some']
          rw [heq]

/-- C5 counterexample: permuting the facet processing order does change
a key's retained scalar fields when the same identity key is observed
with different window-scoped deltas: with the two orderings of the same
pairs, the retained `date_range_stars` for `octocat/dup` is 1 in one
order and 2 in the other, so the maps do not have identical scalar
fields for every key. -/
theorem C5_counterexample_delta_depends_on_order :
    pairsA.Perm pairsB
    ∧ (lookupKey (aggregatePairs pairsA "all" "daily").1
        "octocat/dup").map (fun e => e.repo.date_range_stars) = some 1
    ∧ (lookupKey (aggregatePairs pairsB "all" "daily").1
        "octocat/dup").map (fun e => e.repo.date_range_stars) = some 2 := by
  refine ⟨?_, by decide, by decide⟩
  show List.Perm [([deltaRepo 1], "python"), ([deltaRepo 2], "rust")]
    [([deltaRepo 2], "rust"), ([deltaRepo 1], "python")]
  exact List.Perm.swap ([deltaRepo 2], "rust") ([deltaRepo 1], "python") []

/-- Witness for C5 (amended) at the concrete permuted inputs: the
delta-stripped scalar fields agree. -/
theorem C5_witness :
    (lookupKey (aggregatePairs pairsA "all" "daily").1
        "octocat/dup").map (fun e => stripDelta e.repo)
      = (lookupKey (aggregatePairs pairsB "all" "daily").1
        "octocat/dup").map (fun e => stripDelta e.repo) :=
  (C5_amended_order_insensitive pairsA pairsB "all" "daily"
    (List.Perm.swap ([deltaRepo 2], "rust") ([deltaRepo 1], "python") [])).2
    (by decide) "octocat/dup"

theorem countP_set_add (l : List FetchPhase) (p : FetchPhase → Bool) :
    ∀ (i : Nat) (a b : FetchPhase), l.get? i = some a →
      (l.set i b).countP p + (if p a then 1 else 0)
        = l.countP p + (if p b then 1 else 0) := by
  induction l with
  | nil =>
      intro i a b h
      cases h
  | cons x l ih =>
      intro i a b h
      cases i with
      | zero =>
          have hx : x = a := Option.some.inj h
          subst hx
          simp only [List.set, List.countP_cons]
          omega
      | succ i =>
          have h2 : l.get? i = some a := h
          have h3 := ih i a b h2
          simp only [List.set, List.countP_cons]
          omega

theorem countP_replicate_false (n : Nat) (p : FetchPhase → Bool)
    (a : FetchPhase) (h : p a = false) :
    (List.replicate n a).countP p = 0 := by
  induction n with
  | zero => rfl
  | succ n ih => simp [List.replicate_succ, List.countP_cons, h, ih]

/-- The semaphore invariant: in every reachable batch state, the tasks
holding a slot and the free permits together account for exactly the
initial permit count (5). -/
theorem holders_sem_invariant {K : Nat} :
    ∀ {s : BatchState}, BatchReach K s →
      holders s + s.sem = semaphoreInit := by
  intro s h
  induction h with
  | init =>
      show (List.replicate K FetchPhase.idle).countP holdsSlot
        + semaphoreInit = semaphoreInit
      rw [countP_replicate_false K holdsSlot FetchPhase.idle rfl]
      omega
  | step hr hstep ih =>
      rename_i s0 s1
      cases hstep with
      | acquire i h hs =>
          have hc := countP_set_add s0.tasks holdsSlot i
            FetchPhase.idle FetchPhase.fetching h
          simp [holdsSlot] at hc
          show (s0.tasks.set i FetchPhase.fetching).countP holdsSlot
            + (s0.sem - 1) = semaphoreInit
          unfold holders at ih
          omega
      | requestOk i h =>
          have hc := countP_set_add s0.tasks holdsSlot i
            FetchPhase.fetching FetchPhase.cooling h
          simp [holdsSlot] at hc
          show (s0.tasks.set i FetchPhase.cooling).countP holdsSlot
            + s0.sem = semaphoreInit
          unfold holders at ih
          omega
      | requestFailed i h =>
          have hc := countP_set_add s0.tasks holdsSlot i
            FetchPhase.fetching FetchPhase.finished h
          simp [holdsSlot] at hc
          show (s0.tasks.set i FetchPhase.finished).countP holdsSlot
            + (s0.sem + 1) = semaphoreInit
          unfold holders at ih
          omega
      | cooldownDone i h =>
          have hc := countP_set_add s0.tasks holdsSlot i
            FetchPhase.cooling FetchPhase.finished h
          simp [holdsSlot] at hc
          show (s0.tasks.set i FetchPhase.finished).countP holdsSlot
            + (s0.sem + 1) = semaphoreInit
          unfold holders at ih
          omega

/-- C7: with the concurrency ceiling of 5 (`asyncio.Semaphore(5)`) and
more targets than permits, no reachable state of the batch has more
than 5 network retrievals in flight. -/
theorem C7_at_most_five_in_flight :
    ∀ K : Nat, semaphoreInit < K →
      ∀ s : BatchState, BatchReach K s → inFlight s ≤ semaphoreInit := by
  intro K _ s h
  have hinv := holders_sem_invariant h
  have hmono : inFlight s ≤ holders s := by
    unfold inFlight holders
    apply List.countP_mono_left
    intro t _ hp
    have ht : t = FetchPhase.fetching := by simpa using hp
    rw [ht]
    rfl
  omega

/-- Witness for C7: the state of a 6-target batch after one task has
acquired a permit and started its retrieval is reachable, and its
in-flight count is within the ceiling. -/
theorem C7_witness :
    inFlight ⟨semaphoreInit - 1,
      (List.replicate 6 FetchPhase.idle).set 0 FetchPhase.fetching⟩
      ≤ semaphoreInit :=
  C7_at_most_five_in_flight 6 (by decide) _
    (BatchReach.step BatchReach.init
      (BatchStep.acquire ⟨semaphoreInit, List.replicate 6 FetchPhase.idle⟩ 0
        (by decide) (by decide)))

theorem merge_map_contents (files : List String)
    (contents : String → List AggregatedEntity) :
    files.foldl (fun m p => mergeFile m (contents p)) []
      = merge (files.map contents) := by
  unfold merge
  rw [List.foldl_map]

/-- C8: one merge pass reads exactly the JSON snapshot files in the
`temp` working location except the scratch file `temp/data.json`, and
writes exactly two artifacts — the rolling cumulative
`./data/latest.json` and the hour-stamped archival file — both holding
the merge of the files read; the archival name is the UTC+9 civil time
truncated to hour precision, so two runs within the same hour target
the same archival path (overwriting it). -/
theorem C8_merge_pass_files_and_naming :
    ∀ (entries : List String) (contents : String → List AggregatedEntity)
      (now1 now2 : Datetime),
      (∀ p, p ∈ (organize_main entries contents now1).1
        ↔ (∃ e ∈ entries, (e.endsWith ".json") = true ∧ p = "temp/" ++ e)
          ∧ p ≠ "temp/data.json")
      ∧ (organize_main entries contents now1).2
          = [("./data/latest.json",
              merge ((organize_main entries contents now1).1.map contents)),
             ("./data/" ++ get_jst_time now1 ++ ".json",
              merge ((organize_main entries contents now1).1.map contents))]
      ∧ (now1.year = now2.year → now1.month = now2.month →
          now1.day = now2.day → now1.hour = now2.hour →
          get_jst_time now1 = get_jst_time now2) := by
  intro entries contents now1 now2
  refine ⟨?_, ?_, ?_⟩
  · intro p
    show p ∈ get_json_files entries ↔ _
    unfold get_json_files
    constructor
    · intro hp
      rw [List.mem_filter] at hp
      obtain ⟨hp1, hp2⟩ := hp
      rw [List.mem_map] at hp1
      obtain ⟨e, he, rfl⟩ := hp1
      rw [List.mem_filter] at he
      exact ⟨⟨e, he.1, he.2, rfl⟩, by simpa using hp2⟩
    · rintro ⟨⟨e, he, hjson, rfl⟩, hne⟩
      rw [List.mem_filter]
      exact ⟨List.mem_map.mpr ⟨e, List.mem_filter.mpr ⟨he, hjson⟩, rfl⟩,
        by simpa using hne⟩
  · simp only [organize_main]
    rw [merge_map_contents]
  · intro h1 h2 h3 h4
    unfold get_jst_time
    rw [h1, h2, h3, h4]

/-- Witness for C8: two clock readings in the same UTC+9 hour, differing
in minute and second, yield the same archival file name. -/
theorem C8_witness :
    get_jst_time ⟨2026, 10, 12, 5, 0, 0⟩
      = get_jst_time ⟨2026, 10, 12, 5, 59, 30⟩ :=
  (C8_merge_pass_files_and_naming [] (fun _ => [])
    ⟨2026, 10, 12, 5, 0, 0⟩ ⟨2026, 10, 12, 5, 59, 30⟩).2.2 rfl rfl rfl rfl

theorem langs_aggFold (pairs : List (List Repo × String)) (s w : String) :
    ∀ acc : List AggregatedEntity × List String,
      (pairs.foldl (aggStep s w) acc).2
        = acc.2 ++ pairs.filterMap
            (fun p => if p.1 ≠ [] ∧ p.2 ≠ "all" then some p.2 else none) := by
  induction pairs with
  | nil =>
      intro acc
      simp
  | cons p pairs ih =>
      intro acc
      have hstep : (p :: pairs).foldl (aggStep s w) acc
          = pairs.foldl (aggStep s w) (aggStep s w acc p) := rfl
      rw [hstep, ih, List.filterMap_cons]
      by_cases hl : p.1.length = 0
      · have hempty : p.1 = [] := List.length_eq_zero.mp hl
        have hacc : aggStep s w acc p = acc := by
          unfold aggStep
          rw [if_pos hl]
        rw [hacc]
        simp [hempty]
      · have hne : p.1 ≠ [] := fun hh => hl (by rw [hh]; rfl)
        by_cases ha : p.2 = "all"
        · have hacc2 : (aggStep s w acc p).2 = acc.2 := by
            unfold aggStep
            rw [if_neg hl]
            simp [ha]
          rw [hacc2]
          simp [ha]
        · have hacc2 : (aggStep s w acc p).2 = acc.2 ++ [p.2] := by
            unfold aggStep
            rw [if_neg hl]
            simp [ha]
          rw [hacc2]
          simp [hne, ha]

/-- C10: the successful-facet list saved at the end of a run is exactly
the facet identifiers, excluding the sentinel `"all"`, whose fetched
result was non-empty, in input order; the sentinel is never in it; and
(for facet identifiers without surrounding whitespace) loading the
saved cache returns that same list, so a cached facet list never
contains the sentinel. -/
theorem C10_cached_facet_list :
    ∀ (results : List (List Repo)) (languages : List String) (s w : String),
      (aggregatePairs (results.zip languages) s w).2
        = (results.zip languages).filterMap
            (fun p => if p.1 ≠ [] ∧ p.2 ≠ "all" then some p.2 else none)
      ∧ "all" ∉ (aggregatePairs (results.zip languages) s w).2
      ∧ ((∀ l ∈ languages, pyStrip l = l) →
          load_list true true
              (save_list_lines
                ((aggregatePairs (results.zip languages) s w).2))
            = Except.ok
                (some ((aggregatePairs (results.zip languages) s w).2))) := by
  intro results languages s w
  have hlangs : (aggregatePairs (results.zip languages) s w).2
      = (results.zip languages).filterMap
          (fun p => if p.1 ≠ [] ∧ p.2 ≠ "all" then some p.2 else none) := by
    unfold aggregatePairs
    rw [langs_aggFold]
    rfl
  refine ⟨hlangs, ?_, ?_⟩
  · rw [hlangs]
    intro hmem
    rw [List.mem_filterMap] at hmem
    obtain ⟨p, hp, hsome⟩ := hmem
    by_cases hc : p.1 ≠ [] ∧ p.2 ≠ "all"
    · rw [if_pos hc] at hsome
      exact hc.2 (Option.some.inj hsome)
    · rw [if_neg hc] at hsome
      cases hsome
  · intro hstrip
    have hsub : ∀ l ∈ (aggregatePairs (results.zip languages) s w).2,
        pyStrip l = l := by
      intro l hl
      rw [hlangs, List.mem_filterMap] at hl
      obtain ⟨p, hp, hsome⟩ := hl
      obtain ⟨rs, lang⟩ := p
      by_cases hc : rs ≠ [] ∧ lang ≠ "all"
      · rw [if_pos hc] at hsome
        have hll : lang = l := Option.some.inj hsome
        subst hll
        exact hstrip lang (List.of_mem_zip hp).2
      · rw [if_neg hc] at hsome
        cases hsome
    have hmap : (aggregatePairs (results.zip languages) s w).2.map pyStrip
        = (aggregatePairs (results.zip languages) s w).2 := by
      conv_rhs =>
        rw [← List.map_id ((aggregatePairs (results.zip languages) s w).2)]
      exact List.map_congr_left hsub
    show Except.ok
        (some ((aggregatePairs (results.zip languages) s w).2.map pyStrip))
      = _
    rw [hmap]

/-- Witness for C10: on a concrete default run where both the sentinel
facet and `"python"` return records, the saved and re-loaded facet
cache is exactly `["python"]`. -/
theorem C10_witness :
    load_list true true
        (save_list_lines
          ((aggregatePairs ([[sampleRepo], [sampleRepo]].zip ["all", "python"])
              "all" "daily").2))
      = Except.ok
          (some ((aggregatePairs
              ([[sampleRepo], [sampleRepo]].zip ["all", "python"])
              "all" "daily").2)) :=
  (C10_cached_facet_list [[sampleRepo], [sampleRepo]] ["all", "python"]
    "all" "daily").2.2 (by decide)

end GithubTrending
